import Mathlib

/-!
Shallow embedding of the approval-workflow core of the expense-management
application (source files: `approval_service.py`, `database.py`,
`currency_service.py`, `pages/expense_submission.py`).

The relational state (tables `users`, `expenses`, `approval_workflows`,
`expense_approvals`) is embedded as lists of records in a `DB` structure.
Each SQL-backed operation is embedded as an explicit state-passing function
`... → DB → result × DB`, translated statement by statement from the Python
source.  SQL `UPDATE ... WHERE` becomes a `List.map` with the `WHERE` clause
as the `if` condition; `SELECT COUNT(*) ... WHERE` becomes
`(List.filter ...).length`; `INSERT` appends to the corresponding list;
`ORDER BY sequence_order` becomes `List.insertionSort` on that key.
`CURRENT_TIMESTAMP` is passed in as an explicit `now : Nat` parameter.
The `if not conn: return ...` connection-failure branches of the source are
not modelled: the embedding describes the behaviour over a live connection.
Python float arithmetic in the percentage rule is modelled by exact rational
arithmetic (`ℚ`).
-/

namespace ExpenseApp

/-- Status values allowed by the `CHECK (status IN ...)` constraints of the
`expenses` and `expense_approvals` tables in `database.py`. -/
inductive Status where
  | pending
  | approved
  | rejected
deriving DecidableEq, Repr

/-- The decision actions accepted by the decision processor
(`action ∈ {approved, rejected}` per the `decide` contract). -/
inductive Action where
  | approved
  | rejected
deriving DecidableEq, Repr

/-- The status stored for a decided approval row. -/
def Action.toStatus : Action → Status
  | .approved => .approved
  | .rejected => .rejected

/-- One row of the `expense_approvals` table. -/
structure ApprovalRow where
  expense_id : Nat
  approver_id : Nat
  sequence_order : Nat
  status : Status
  comments : Option String
  approved_at : Option Nat
deriving DecidableEq, Repr

/-- One row of the `approval_workflows` table (spec name: ApprovalRule). -/
structure ApprovalRule where
  company_id : Nat
  name : String
  approver_id : Nat
  sequence_order : Nat
  is_manager_approver : Bool
  percentage_rule : Option Int
  specific_approver_rule : Bool
deriving DecidableEq, Repr

/-- One row of the `expenses` table. -/
structure Expense where
  id : Nat
  employee_id : Nat
  company_id : Nat
  amount : ℚ
  currency : String
  converted_amount : ℚ
  category : String
  description : String
  expense_date : String
  receipt_path : Option String
  status : Status
deriving DecidableEq, Repr

/-- One row of the `users` table (fields the core reads). -/
structure User where
  id : Nat
  name : String
  email : String
  role : String
  company_id : Nat
  manager_id : Option Nat
deriving DecidableEq, Repr

/-- The persistent state: the four tables the approval core touches. -/
structure DB where
  users : List User
  expenses : List Expense
  approval_workflows : List ApprovalRule
  expense_approvals : List ApprovalRow
deriving DecidableEq, Repr

/-- The `SELECT u.manager_id, u.id FROM expenses e JOIN users u ON
e.employee_id = u.id WHERE e.id = %s` lookup at the top of
`create_approval_workflow`: `none` when the expense or its employee row is
missing (`fetchone` returns nothing). -/
def lookupEmployee (db : DB) (expense_id : Nat) : Option User :=
  match db.expenses.find? (fun e => e.id == expense_id) with
  | none => none
  | some e => db.users.find? (fun u => u.id == e.employee_id)

/-- Comparison used by `ORDER BY sequence_order` on `approval_workflows`. -/
def ruleLe (x y : ApprovalRule) : Prop :=
  x.sequence_order ≤ y.sequence_order

instance : DecidableRel ruleLe := fun x y => Nat.decLe x.sequence_order y.sequence_order

/-- The rule set fetched by `create_approval_workflow`'s second query:
`WHERE company_id = %s AND is_manager_approver = FALSE` (before ordering). -/
def companyRules (db : DB) (company_id : Nat) : List ApprovalRule :=
  db.approval_workflows.filter
    (fun w => w.company_id == company_id && !w.is_manager_approver)

/-- The manager step of the builder: one pending row at sequence 1 when the
employee has a manager, nothing otherwise. -/
def managerRows (expense_id : Nat) (u : User) : List ApprovalRow :=
  match u.manager_id with
  | some m => [⟨expense_id, m, 1, .pending, none, none⟩]
  | none => []

/-- The rule steps of the builder: one pending row per non-manager company
rule in ascending `sequence_order`, numbered contiguously from `start + 1`. -/
def ruleRows (db : DB) (company_id expense_id start : Nat) : List ApprovalRow :=
  ((companyRules db company_id).insertionSort ruleLe).enum.map
    (fun p => ⟨expense_id, p.2.approver_id, start + 1 + p.1, .pending, none, none⟩)

/-- `create_approval_workflow(company_id, expense_id)` from
`approval_service.py` lines 5-64: look up the employee, insert a pending
manager row at sequence 1 when `manager_id` is set, then one pending row per
non-manager company rule in ascending `sequence_order`, numbering the
sequence contiguously. -/
def create_approval_workflow (company_id expense_id : Nat) (db : DB) :
    Bool × DB :=
  match lookupEmployee db expense_id with
  | none => (false, db)
  | some u =>
    (true, { db with
             expense_approvals := db.expense_approvals ++ managerRows expense_id u ++
               ruleRows db company_id expense_id (managerRows expense_id u).length })

/-- The first `UPDATE` of `process_approval` (lines 103-107): set the pending
row(s) of `(expense_id, approver_id)` to the action's status, storing the
comments and stamping `approved_at`. -/
def decideRow (expense_id approver_id : Nat) (action : Action)
    (comments : String) (now : Nat) (r : ApprovalRow) : ApprovalRow :=
  if r.expense_id == expense_id && r.approver_id == approver_id &&
      r.status == Status.pending then
    { r with status := action.toStatus, comments := some comments,
             approved_at := some now }
  else r

/-- The cascade `UPDATE` of `process_approval` (lines 115-119): every other
approver's still-pending row of the expense becomes rejected with the
auto-cascade comment (`approved_at` is not touched there). -/
def cascadeRow (expense_id approver_id : Nat) (r : ApprovalRow) : ApprovalRow :=
  if r.expense_id == expense_id && r.status == Status.pending &&
      r.approver_id != approver_id then
    { r with status := Status.rejected,
             comments := some "Auto-rejected due to earlier rejection" }
  else r

/-- `UPDATE expenses SET status = %s WHERE id = %s`. -/
def setExpenseStatus (expense_id : Nat) (s : Status) (e : Expense) : Expense :=
  if e.id == expense_id then { e with status := s } else e

/-- Number of `expense_approvals` rows of one expense with one status
(`SELECT COUNT(*) ... WHERE expense_id = %s AND status = %s`). -/
def countStat (rows : List ApprovalRow) (expense_id : Nat) (s : Status) : Nat :=
  (rows.filter (fun r => r.expense_id == expense_id && r.status == s)).length

/-- Number of `expense_approvals` rows of one expense. -/
def countRows (rows : List ApprovalRow) (expense_id : Nat) : Nat :=
  (rows.filter (fun r => r.expense_id == expense_id)).length

/-- `process_approval(expense_id, approver_id, action, comments)` from
`approval_service.py` lines 93-145: update the pending row of the pair; on
`rejected`, mark the expense rejected and cascade-reject all other pending
rows; on `approved`, mark the expense approved when no pending rows remain. -/
def process_approval (expense_id approver_id : Nat) (action : Action)
    (comments : String) (now : Nat) (db : DB) : Bool × DB :=
  let rows1 := db.expense_approvals.map
    (decideRow expense_id approver_id action comments now)
  match action with
  | .rejected =>
    (true, { db with
             expenses := db.expenses.map (setExpenseStatus expense_id .rejected),
             expense_approvals := rows1.map (cascadeRow expense_id approver_id) })
  | .approved =>
    if countStat rows1 expense_id .pending == 0 then
      (true, { db with
               expenses := db.expenses.map (setExpenseStatus expense_id .approved),
               expense_approvals := rows1 })
    else
      (true, { db with expense_approvals := rows1 })

/-- The specific-approver check inside `check_conditional_approval`
(lines 208-214): the rule's approver has an approved row for the expense. -/
def specificApproverMet (db : DB) (expense_id approver_id : Nat) : Bool :=
  0 < (db.expense_approvals.filter
        (fun r => r.expense_id == expense_id && r.approver_id == approver_id &&
                  r.status == Status.approved)).length

/-- The percentage check inside `check_conditional_approval` (lines 218-232):
with at least one approval row, the approved fraction (as an exact rational,
modelling Python's float division) times 100 reaches the threshold. -/
def percentageMet (db : DB) (expense_id : Nat) (p : Int) : Bool :=
  let total := countRows db.expense_approvals expense_id
  let approvedCount := countStat db.expense_approvals expense_id .approved
  decide (0 < total) &&
    decide (((approvedCount : ℚ) / (total : ℚ)) * 100 ≥ (p : ℚ))

/-- The per-rule test of the loop body of `check_conditional_approval`:
the Python truthiness test `if percentage_rule:` skips both `NULL` and `0`
thresholds. -/
def ruleMet (db : DB) (expense_id : Nat) (w : ApprovalRule) : Bool :=
  (w.specific_approver_rule && specificApproverMet db expense_id w.approver_id) ||
  (match w.percentage_rule with
   | some p => decide (p ≠ 0) && percentageMet db expense_id p
   | none => false)

/-- `check_conditional_approval(expense_id, company_id)` from
`approval_service.py` lines 185-241: scan the company's conditional rules
(`percentage_rule IS NOT NULL OR specific_approver_rule = TRUE`) and return
true on the first rule whose condition is met.  The function only runs
`SELECT` statements, so the state component is returned unchanged. -/
def check_conditional_approval (expense_id company_id : Nat) (db : DB) :
    Bool × DB :=
  ((db.approval_workflows.filter
      (fun w => w.company_id == company_id &&
                (w.percentage_rule.isSome || w.specific_approver_rule))).any
     (ruleMet db expense_id), db)

/-- `create_approval_rule` from `approval_service.py` lines 243-271: a bare
`INSERT` into `approval_workflows` with no validation of any argument. -/
def create_approval_rule (company_id : Nat) (name : String)
    (approver_id sequence_order : Nat) (percentage_rule : Option Int)
    (specific_approver_rule is_manager_approver : Bool) (db : DB) : Bool × DB :=
  (true, { db with
           approval_workflows := db.approval_workflows ++
             [⟨company_id, name, approver_id, sequence_order,
               is_manager_approver, percentage_rule, specific_approver_rule⟩] })

/-- `convert_currency(amount, from, to)` from `currency_service.py` lines
55-67: same currency returns the amount; otherwise look the target up in the
externally fetched rate table (`rates = none` models an unavailable service)
and multiply.  Python's `round(·, 2)` on floats is not modelled; only the
success/failure shape and the rate lookup are relevant here. -/
def convert_currency (rates : Option (String → Option ℚ)) (amount : ℚ)
    (from_currency to_currency : String) : Option ℚ :=
  if from_currency == to_currency then some amount
  else
    match rates with
    | some table =>
      match table to_currency with
      | some rate => some (amount * rate)
      | none => none
    | none => none

/-- `create_expense` from `database.py` lines 267-293: insert a new
`expenses` row (status defaults to `pending` per the table definition) and
return its id. -/
def create_expense (new_id employee_id company_id : Nat) (amount : ℚ)
    (currency : String) (converted_amount : ℚ)
    (category description expense_date : String)
    (receipt_path : Option String) (db : DB) : Option Nat × DB :=
  (some new_id,
   { db with
     expenses := db.expenses ++
       [⟨new_id, employee_id, company_id, amount, currency, converted_amount,
         category, description, expense_date, receipt_path, .pending⟩] })

/-- The submission core of `show_manual_expense_form` in
`pages/expense_submission.py` lines 49-75: validate the required fields,
convert the currency when it differs from the company default (aborting the
whole submission when conversion fails), then create the expense row and its
approval workflow.  Returns the new expense id on success. -/
def submit_expense (user : User) (default_currency : String)
    (rates : Option (String → Option ℚ)) (amount : ℚ) (currency : String)
    (category description expense_date : String)
    (receipt_path : Option String) (new_id : Nat) (db : DB) :
    Option Nat × DB :=
  if amount != 0 && currency != "" && category != "" && description != "" then
    let conv : Option ℚ :=
      if currency != default_currency then
        convert_currency rates amount currency default_currency
      else some amount
    match conv with
    | none => (none, db)
    | some converted_amount =>
      let res := create_expense new_id user.id user.company_id amount currency
        converted_amount category description expense_date receipt_path db
      match res.1 with
      | none => (none, res.2)
      | some expense_id =>
        (some expense_id, (create_approval_workflow user.company_id expense_id res.2).2)
  else (none, db)

/-- One call of the workflow state machine: the two state-mutating operations
of the approval core. -/
inductive Call where
  | createWorkflow (company_id expense_id : Nat)
  | processApproval (expense_id approver_id : Nat) (action : Action)
      (comments : String) (now : Nat)
deriving DecidableEq, Repr

/-- State reached by one call (result flag discarded). -/
def runCall (db : DB) : Call → DB
  | .createWorkflow cid eid => (create_approval_workflow cid eid db).2
  | .processApproval e a act cm t => (process_approval e a act cm t db).2

/-- State reached by a sequence of calls. -/
def runCalls (db : DB) (cs : List Call) : DB :=
  cs.foldl runCall db

/-- The spec's condition for `approved`: at least one approval row, zero
pending, zero rejected. -/
def approvedCond (rows : List ApprovalRow) (eid : Nat) : Prop :=
  0 < countRows rows eid ∧
  countStat rows eid .pending = 0 ∧
  countStat rows eid .rejected = 0

/-- The spec's condition for `rejected`: at least one rejected row. -/
def rejectedCond (rows : List ApprovalRow) (eid : Nat) : Prop :=
  0 < countStat rows eid .rejected

/-- The claimed status invariant for one expense: `approved` iff the
approved-condition, `rejected` iff some row is rejected, `pending`
otherwise. -/
def expInvariant (rows : List ApprovalRow) (e : Expense) : Prop :=
  (e.status = .approved ↔ approvedCond rows e.id) ∧
  (e.status = .rejected ↔ rejectedCond rows e.id) ∧
  (e.status = .pending ↔ ¬approvedCond rows e.id ∧ ¬rejectedCond rows e.id)

/-- The claimed status invariant over the whole state. -/
def statusInvariant (db : DB) : Prop :=
  ∀ e ∈ db.expenses, expInvariant db.expense_approvals e

/-- Inductive strengthening of the status invariant: a rejected expense has
no pending rows (the cascade establishes this and every operation preserves
it). -/
def statusInvariantFull (db : DB) : Prop :=
  ∀ e ∈ db.expenses, expInvariant db.expense_approvals e ∧
    (e.status = .rejected → countStat db.expense_approvals e.id .pending = 0)

/-- Preconditions under which the claimed invariant is actually preserved:
the builder only runs against expenses still in `pending` status (the spec's
own builder contract), and a decision call has a pending row for its
`(expense, approver)` pair. -/
def admissible (db : DB) : Call → Prop
  | .createWorkflow _ eid =>
      ∀ e ∈ db.expenses, e.id = eid → e.status = .pending
  | .processApproval e a _ _ _ =>
      ∃ r ∈ db.expense_approvals,
        r.expense_id = e ∧ r.approver_id = a ∧ r.status = .pending

instance (db : DB) (c : Call) : Decidable (admissible db c) :=
  match c with
  | .createWorkflow _ eid =>
      inferInstanceAs (Decidable (∀ e ∈ db.expenses, e.id = eid → e.status = .pending))
  | .processApproval e a _ _ _ =>
      inferInstanceAs (Decidable (∃ r ∈ db.expense_approvals,
        r.expense_id = e ∧ r.approver_id = a ∧ r.status = .pending))

/-- A call sequence every step of which is admissible in the state where it
runs. -/
inductive AdmissibleTrace : DB → List Call → Prop
  | nil (db : DB) : AdmissibleTrace db []
  | cons {db : DB} {c : Call} {cs : List Call} :
      admissible db c → AdmissibleTrace (runCall db c) cs →
      AdmissibleTrace db (c :: cs)

/-- The conditional-approval condition as the spec sentence words it
(claim C6): some specific-approver rule against an approved row of its
approver, or some non-null percentage rule whose threshold is reached by the
approved fraction. -/
def specCondClaim (db : DB) (expense_id company_id : Nat) : Prop :=
  (∃ w ∈ db.approval_workflows, w.company_id = company_id ∧
     w.specific_approver_rule = true ∧
     ∃ r ∈ db.expense_approvals, r.expense_id = expense_id ∧
       r.approver_id = w.approver_id ∧ r.status = .approved) ∨
  (∃ w ∈ db.approval_workflows, w.company_id = company_id ∧
     ∃ p : Int, w.percentage_rule = some p ∧
       ((countStat db.expense_approvals expense_id .approved : ℚ) /
          (countRows db.expense_approvals expense_id : ℚ)) * 100 ≥ (p : ℚ))

/-- The conditional-approval condition the code implements: as the claim,
but a percentage rule fires only when its threshold is non-zero (Python's
`if percentage_rule:` truthiness) and the expense has at least one approval
row. -/
def specCondAmended (db : DB) (expense_id company_id : Nat) : Prop :=
  (∃ w ∈ db.approval_workflows, w.company_id = company_id ∧
     w.specific_approver_rule = true ∧
     ∃ r ∈ db.expense_approvals, r.expense_id = expense_id ∧
       r.approver_id = w.approver_id ∧ r.status = .approved) ∨
  (∃ w ∈ db.approval_workflows, w.company_id = company_id ∧
     ∃ p : Int, w.percentage_rule = some p ∧ p ≠ 0 ∧
       0 < countRows db.expense_approvals expense_id ∧
       ((countStat db.expense_approvals expense_id .approved : ℚ) /
          (countRows db.expense_approvals expense_id : ℚ)) * 100 ≥ (p : ℚ))

/-- A status count is zero exactly when no row of the expense carries the
status. -/
theorem countStat_eq_zero_iff (rows : List ApprovalRow) (eid : Nat) (s : Status) :
    countStat rows eid s = 0 ↔ ∀ r ∈ rows, ¬(r.expense_id = eid ∧ r.status = s) := by
  simp [countStat, List.length_eq_zero, List.filter_eq_nil_iff]

/-- A status count is positive exactly when some row of the expense carries
the status. -/
theorem countStat_pos_iff (rows : List ApprovalRow) (eid : Nat) (s : Status) :
    0 < countStat rows eid s ↔ ∃ r ∈ rows, r.expense_id = eid ∧ r.status = s := by
  simp [countStat, List.length_pos_iff_exists_mem, List.mem_filter]

/-- The total row count of an expense is positive exactly when the expense
has a row. -/
theorem countRows_pos_iff (rows : List ApprovalRow) (eid : Nat) :
    0 < countRows rows eid ↔ ∃ r ∈ rows, r.expense_id = eid := by
  simp [countRows, List.length_pos_iff_exists_mem, List.mem_filter]

/-- Counting after a row-wise update that does not move rows between the
predicate classes gives the same count. -/
theorem length_filter_map_eq {α : Type} (f : α → α) (p : α → Bool) (l : List α)
    (h : ∀ a ∈ l, p (f a) = p a) :
    ((l.map f).filter p).length = (l.filter p).length := by
  induction l with
  | nil => rfl
  | cons a t ih =>
    have ht : ∀ b ∈ t, p (f b) = p b := fun b hb => h b (List.mem_cons_of_mem a hb)
    have ha : p (f a) = p a := h a (List.mem_cons_self a t)
    simp only [List.map_cons, List.filter_cons, ha]
    cases p a <;> simp [ih ht]

/-- A decision update leaves a row alone unless it is the pending row of the
pair. -/
theorem decideRow_eq_self {e a : Nat} {act : Action} {cm : String} {now : Nat}
    {r : ApprovalRow} (h : ¬(r.expense_id = e ∧ r.approver_id = a ∧ r.status = .pending)) :
    decideRow e a act cm now r = r := by
  unfold decideRow
  split
  next hc =>
    exfalso
    simp only [Bool.and_eq_true, beq_iff_eq] at hc
    exact h ⟨hc.1.1, hc.1.2, hc.2⟩
  next => rfl

/-- A decision update on the pending row of the pair stores the action's
status, the comments and the timestamp. -/
theorem decideRow_eq_of_match {e a : Nat} {act : Action} {cm : String} {now : Nat}
    {r : ApprovalRow} (h : r.expense_id = e ∧ r.approver_id = a ∧ r.status = .pending) :
    decideRow e a act cm now r =
      { r with status := act.toStatus, comments := some cm, approved_at := some now } := by
  unfold decideRow
  rw [if_pos]
  simp only [Bool.and_eq_true, beq_iff_eq]
  exact ⟨⟨h.1, h.2.1⟩, h.2.2⟩

/-- Decision updates preserve the expense a row belongs to. -/
theorem decideRow_expense_id (e a : Nat) (act : Action) (cm : String) (now : Nat)
    (r : ApprovalRow) : (decideRow e a act cm now r).expense_id = r.expense_id := by
  unfold decideRow
  split <;> rfl

/-- Decision updates preserve the approver of a row. -/
theorem decideRow_approver_id (e a : Nat) (act : Action) (cm : String) (now : Nat)
    (r : ApprovalRow) : (decideRow e a act cm now r).approver_id = r.approver_id := by
  unfold decideRow
  split <;> rfl

/-- The cascade leaves a row alone unless it is a pending row of the expense
held by another approver. -/
theorem cascadeRow_eq_self {e a : Nat} {r : ApprovalRow}
    (h : ¬(r.expense_id = e ∧ r.status = .pending ∧ r.approver_id ≠ a)) :
    cascadeRow e a r = r := by
  unfold cascadeRow
  split
  next hc =>
    exfalso
    simp only [Bool.and_eq_true, beq_iff_eq, bne_iff_ne] at hc
    exact h ⟨hc.1.1, hc.1.2, hc.2⟩
  next => rfl

/-- The cascade rewrites a pending row of the expense held by another
approver to rejected with the auto comment. -/
theorem cascadeRow_eq_of_match {e a : Nat} {r : ApprovalRow}
    (h : r.expense_id = e ∧ r.status = .pending ∧ r.approver_id ≠ a) :
    cascadeRow e a r =
      { r with status := .rejected,
               comments := some "Auto-rejected due to earlier rejection" } := by
  unfold cascadeRow
  rw [if_pos]
  simp only [Bool.and_eq_true, beq_iff_eq, bne_iff_ne]
  exact ⟨⟨h.1, h.2.1⟩, h.2.2⟩

/-- The cascade preserves the expense a row belongs to. -/
theorem cascadeRow_expense_id (e a : Nat) (r : ApprovalRow) :
    (cascadeRow e a r).expense_id = r.expense_id := by
  unfold cascadeRow
  split <;> rfl

/-- The expense-status update preserves ids. -/
theorem setExpenseStatus_id (eid : Nat) (s : Status) (e : Expense) :
    (setExpenseStatus eid s e).id = e.id := by
  unfold setExpenseStatus
  split <;> rfl

/-- The expense-status update leaves other expenses alone. -/
theorem setExpenseStatus_eq_self {eid : Nat} {s : Status} {e : Expense}
    (h : e.id ≠ eid) : setExpenseStatus eid s e = e := by
  unfold setExpenseStatus
  rw [if_neg]
  simp [h]

/-- The expense-status update writes the status on the target id. -/
theorem setExpenseStatus_eq_of_match {eid : Nat} {s : Status} {e : Expense}
    (h : e.id = eid) : setExpenseStatus eid s e = { e with status := s } := by
  unfold setExpenseStatus
  rw [if_pos]
  simp [h]

/-- Claim C8: `check_conditional_approval` mutates no stored state — the
expense's status, every ExpenseApproval row and every ApprovalRule are
identical before and after the call; the evaluator performs only reads. -/
theorem check_conditional_approval_readonly (expense_id company_id : Nat) (db : DB) :
    (check_conditional_approval expense_id company_id db).2 = db := rfl

/-- Claim C10, counterexample: `create_approval_rule` with
`percentage_rule = 150` (outside 0–100) returns success and stores the rule,
instead of returning an error and storing nothing. -/
theorem out_of_range_percentage_rule_stored :
    (create_approval_rule 1 "Big" 2 1 (some 150) false false ⟨[], [], [], []⟩).1 = true ∧
    (create_approval_rule 1 "Big" 2 1 (some 150) false false
        ⟨[], [], [], []⟩).2.approval_workflows ≠ [] := by
  refine ⟨rfl, ?_⟩
  decide

/-- Claim C10 (amended): `create_approval_rule` performs no range validation:
for every `percentage_rule` outside 0–100 it still returns success and
appends the rule, with the out-of-range threshold, to the stored rules. -/
theorem create_approval_rule_no_validation (db : DB) (cid : Nat) (nm : String)
    (aid seq : Nat) (p : Int) (sp im : Bool) (hp : p < 0 ∨ 100 < p) :
    create_approval_rule cid nm aid seq (some p) sp im db =
      (true, { db with approval_workflows :=
                 db.approval_workflows ++ [⟨cid, nm, aid, seq, im, some p, sp⟩] }) := rfl

/-- Concrete instance of the C10 theorem at threshold 150 on the empty
state. -/
theorem create_approval_rule_no_validation_witness :
    create_approval_rule 1 "Big" 2 1 (some 150) false false ⟨[], [], [], []⟩ =
      (true, ⟨[], [], [⟨1, "Big", 2, 1, false, some 150, false⟩], []⟩) :=
  create_approval_rule_no_validation ⟨[], [], [], []⟩ 1 "Big" 2 1 150 false false
    (Or.inr (by decide))

/-- Claim C9: when the submitted currency differs from the company default
and currency conversion returns no value, the submission is blocked
entirely: no Expense row is created, no approval rows are built, the state
is returned unchanged. -/
theorem submission_blocked_on_conversion_failure (user : User) (dc : String)
    (rates : Option (String → Option ℚ)) (amount : ℚ)
    (currency cat desc d : String) (rp : Option String) (nid : Nat) (db : DB)
    (hc : currency ≠ dc)
    (hf : convert_currency rates amount currency dc = none) :
    submit_expense user dc rates amount currency cat desc d rp nid db = (none, db) := by
  have hb : (currency != dc) = true := by simp [bne_iff_ne, hc]
  unfold submit_expense
  split
  · simp [hb, hf]
  · rfl

/-- Concrete instance of the C9 theorem: unavailable rate service
(`rates = none`), EUR expense against a USD company default. -/
theorem submission_blocked_on_conversion_failure_witness :
    submit_expense ⟨1, "e", "e@x", "employee", 1, some 2⟩ "USD" none 5 "EUR"
        "Food" "lunch" "2026-01-05" none 7 ⟨[], [], [], []⟩ =
      (none, ⟨[], [], [], []⟩) :=
  submission_blocked_on_conversion_failure ⟨1, "e", "e@x", "employee", 1, some 2⟩
    "USD" none 5 "EUR" "Food" "lunch" "2026-01-05" none 7 ⟨[], [], [], []⟩
    (by decide) rfl

/-- Rows without a pending entry for the pair are untouched by the decision
update. -/
theorem map_decideRow_eq_self {rows : List ApprovalRow} {e a : Nat}
    {act : Action} {cm : String} {now : Nat}
    (h : ∀ r ∈ rows,
      ¬(r.expense_id = e ∧ r.approver_id = a ∧ r.status = .pending)) :
    rows.map (decideRow e a act cm now) = rows := by
  have h0 : ∀ r ∈ rows, decideRow e a act cm now r = r :=
    fun r hr => decideRow_eq_self (h r hr)
  calc rows.map (decideRow e a act cm now)
      = rows.map id := List.map_congr_left h0
    _ = rows := List.map_id _

/-- Claim C7: a `process_approval(..., approved, ...)` call on an expense
with no pending approval rows — including zero rows, or all rows already
rejected — returns true and sets the expense's status to approved (leaving
the approval rows unchanged); in particular it can flip a rejected expense
to approved. -/
theorem process_approval_no_pending_approves (db : DB) (e a : Nat)
    (cm : String) (now : Nat)
    (h : countStat db.expense_approvals e .pending = 0) :
    process_approval e a .approved cm now db =
      (true, { db with expenses := db.expenses.map (setExpenseStatus e .approved) }) := by
  have hnp : ∀ r ∈ db.expense_approvals, ¬(r.expense_id = e ∧ r.status = .pending) :=
    (countStat_eq_zero_iff _ _ _).mp h
  have hrows : db.expense_approvals.map (decideRow e a .approved cm now) =
      db.expense_approvals :=
    map_decideRow_eq_self (fun r hr hc => hnp r hr ⟨hc.1, hc.2.2⟩)
  unfold process_approval
  simp only [hrows, h]
  rfl

/-- Concrete instance of the C7 theorem: an expense already rejected (with
one rejected row carrying the cascade comment) is flipped to approved by a
stray approve call. -/
theorem process_approval_no_pending_approves_witness :
    process_approval 1 9 .approved "late" 3
        ⟨[], [⟨1, 1, 1, 5, "USD", 5, "Food", "d", "2026-01-02", none, .rejected⟩], [],
         [⟨1, 2, 1, .rejected, some "Auto-rejected due to earlier rejection", none⟩]⟩ =
      (true,
       ⟨[], [⟨1, 1, 1, 5, "USD", 5, "Food", "d", "2026-01-02", none, .approved⟩], [],
        [⟨1, 2, 1, .rejected, some "Auto-rejected due to earlier rejection", none⟩]⟩) := by
  have h := process_approval_no_pending_approves
    ⟨[], [⟨1, 1, 1, 5, "USD", 5, "Food", "d", "2026-01-02", none, .rejected⟩], [],
     [⟨1, 2, 1, .rejected, some "Auto-rejected due to earlier rejection", none⟩]⟩
    1 9 "late" 3 (by decide)
  simpa using h

/-- Claim C2, counterexample: with one pending row held by approver 2, a
`rejected` call by approver 3 — who has no pending row for the expense —
still mutates stored state (the expense flips to rejected and approver 2's
row is cascade-rejected). -/
theorem ghost_reject_mutates_state :
    (∀ r ∈ (⟨[], [⟨1, 1, 1, 5, "USD", 5, "Food", "d", "2026-01-03", none, .pending⟩],
              [], [⟨1, 2, 1, .pending, none, none⟩]⟩ : DB).expense_approvals,
        ¬(r.expense_id = 1 ∧ r.approver_id = 3 ∧ r.status = .pending)) ∧
    (process_approval 1 3 .rejected "no" 0
        ⟨[], [⟨1, 1, 1, 5, "USD", 5, "Food", "d", "2026-01-03", none, .pending⟩],
         [], [⟨1, 2, 1, .pending, none, none⟩]⟩).2 ≠
      ⟨[], [⟨1, 1, 1, 5, "USD", 5, "Food", "d", "2026-01-03", none, .pending⟩],
       [], [⟨1, 2, 1, .pending, none, none⟩]⟩ := by
  decide

/-- Claim C2 (amended): when no pending row exists for the pair, an
`approved` call leaves every approval row unchanged and sets the expense to
approved exactly when the expense has zero pending rows (otherwise nothing
changes), while a `rejected` call still sets the expense's status to
rejected and cascade-rejects every pending row held by another approver. -/
theorem process_approval_no_pending_pair (db : DB) (e a : Nat)
    (c1 c2 : String) (n1 n2 : Nat)
    (h : ∀ r ∈ db.expense_approvals,
      ¬(r.expense_id = e ∧ r.approver_id = a ∧ r.status = .pending)) :
    process_approval e a .approved c1 n1 db =
      (true, if countStat db.expense_approvals e .pending = 0
             then { db with expenses := db.expenses.map (setExpenseStatus e .approved) }
             else db) ∧
    process_approval e a .rejected c2 n2 db =
      (true, { db with
               expenses := db.expenses.map (setExpenseStatus e .rejected),
               expense_approvals := db.expense_approvals.map (cascadeRow e a) }) := by
  have hra : db.expense_approvals.map (decideRow e a .approved c1 n1) =
      db.expense_approvals := map_decideRow_eq_self h
  have hrr : db.expense_approvals.map (decideRow e a .rejected c2 n2) =
      db.expense_approvals := map_decideRow_eq_self h
  constructor
  · unfold process_approval
    simp only [hra]
    by_cases h0 : countStat db.expense_approvals e .pending = 0
    · simp [h0]
    · simp [h0]
  · unfold process_approval
    simp only [hrr]

/-- Concrete instance of the C2 theorem: the ghost rejection by approver 3
cascades approver 2's pending row and rejects the expense. -/
theorem process_approval_no_pending_pair_witness :
    process_approval 1 3 .rejected "no" 0
        ⟨[], [⟨1, 1, 1, 5, "USD", 5, "Food", "d", "2026-01-03", none, .pending⟩],
         [], [⟨1, 2, 1, .pending, none, none⟩]⟩ =
      (true,
       { (⟨[], [⟨1, 1, 1, 5, "USD", 5, "Food", "d", "2026-01-03", none, .pending⟩],
           [], [⟨1, 2, 1, .pending, none, none⟩]⟩ : DB) with
         expenses :=
           ([⟨1, 1, 1, 5, "USD", 5, "Food", "d", "2026-01-03", none, .pending⟩] :
             List Expense).map (setExpenseStatus 1 .rejected),
         expense_approvals :=
           ([⟨1, 2, 1, .pending, none, none⟩] : List ApprovalRow).map (cascadeRow 1 3) }) :=
  (process_approval_no_pending_pair
    ⟨[], [⟨1, 1, 1, 5, "USD", 5, "Food", "d", "2026-01-03", none, .pending⟩],
     [], [⟨1, 2, 1, .pending, none, none⟩]⟩ 1 3 "no" "no" 0 0 (by decide)).2

/-- Claim C3: a rejection by an approver holding a pending row sets that
approver's pending row to rejected with the caller's comments (stamping the
timestamp), sets the expense's status to rejected, and sets every other
still-pending row of the expense to rejected with the auto-cascade comment,
leaving rows already in a terminal state unchanged. -/
theorem process_approval_reject_cascade (db : DB) (e a : Nat) (cm : String)
    (now : Nat)
    (h : ∃ r ∈ db.expense_approvals,
      r.expense_id = e ∧ r.approver_id = a ∧ r.status = .pending) :
    process_approval e a .rejected cm now db =
      (true, { db with
        expenses := db.expenses.map (setExpenseStatus e .rejected),
        expense_approvals := db.expense_approvals.map (fun r =>
          if r.expense_id = e ∧ r.status = .pending then
            if r.approver_id = a then
              { r with status := .rejected, comments := some cm,
                       approved_at := some now }
            else
              { r with status := .rejected,
                       comments := some "Auto-rejected due to earlier rejection" }
          else r) }) := by
  clear h
  unfold process_approval
  simp only [List.map_map]
  have hpt : ∀ r ∈ db.expense_approvals,
      (cascadeRow e a ∘ decideRow e a .rejected cm now) r =
      (if r.expense_id = e ∧ r.status = .pending then
        if r.approver_id = a then
          { r with status := .rejected, comments := some cm,
                   approved_at := some now }
        else
          { r with status := .rejected,
                   comments := some "Auto-rejected due to earlier rejection" }
      else r) := by
    intro r _
    by_cases h1 : r.expense_id = e
    · by_cases h2 : r.status = Status.pending
      · by_cases h3 : r.approver_id = a
        · rw [Function.comp_apply, decideRow_eq_of_match ⟨h1, h3, h2⟩,
            cascadeRow_eq_self (by simp [Action.toStatus])]
          simp [h1, h2, h3, Action.toStatus]
        · rw [Function.comp_apply,
            decideRow_eq_self (fun hc => h3 hc.2.1),
            cascadeRow_eq_of_match ⟨h1, h2, h3⟩]
          simp [h1, h2, h3]
      · rw [Function.comp_apply,
          decideRow_eq_self (fun hc => h2 hc.2.2),
          cascadeRow_eq_self (fun hc => h2 hc.2.1)]
        simp [h1, h2]
    · rw [Function.comp_apply,
        decideRow_eq_self (fun hc => h1 hc.1),
        cascadeRow_eq_self (fun hc => h1 hc.1)]
      simp [h1]
  rw [List.map_congr_left hpt]

/-- Concrete instance of the C3 theorem: the spec's cascade scenario — three
pending rows (sequence 1, 2, 3), approver of row 2 rejects, rows 1 and 3 get
the cascade comment and the expense becomes rejected. -/
theorem process_approval_reject_cascade_witness :
    process_approval 1 20 .rejected "too costly" 4
        ⟨[], [⟨1, 1, 1, 5, "USD", 5, "Food", "d", "2026-01-04", none, .pending⟩], [],
         [⟨1, 10, 1, .pending, none, none⟩, ⟨1, 20, 2, .pending, none, none⟩,
          ⟨1, 30, 3, .pending, none, none⟩]⟩ =
      (true,
       ⟨[], [⟨1, 1, 1, 5, "USD", 5, "Food", "d", "2026-01-04", none, .rejected⟩], [],
        [⟨1, 10, 1, .rejected, some "Auto-rejected due to earlier rejection", none⟩,
         ⟨1, 20, 2, .rejected, some "too costly", some 4⟩,
         ⟨1, 30, 3, .rejected, some "Auto-rejected due to earlier rejection", none⟩]⟩) := by
  have h := process_approval_reject_cascade
    ⟨[], [⟨1, 1, 1, 5, "USD", 5, "Food", "d", "2026-01-04", none, .pending⟩], [],
     [⟨1, 10, 1, .pending, none, none⟩, ⟨1, 20, 2, .pending, none, none⟩,
      ⟨1, 30, 3, .pending, none, none⟩]⟩ 1 20 "too costly" 4 (by decide)
  exact h.trans (by decide)

/-- After a decision update, no pending row for the pair remains. -/
theorem no_pending_pair_after_decide (rows : List ApprovalRow) (e a : Nat)
    (act : Action) (cm : String) (now : Nat) :
    ∀ r ∈ rows.map (decideRow e a act cm now),
      ¬(r.expense_id = e ∧ r.approver_id = a ∧ r.status = .pending) := by
  intro r hr
  rcases List.mem_map.mp hr with ⟨r0, hr0, rfl⟩
  by_cases hm : r0.expense_id = e ∧ r0.approver_id = a ∧ r0.status = .pending
  · rw [decideRow_eq_of_match hm]
    rintro ⟨-, -, hs⟩
    cases act <;> simp [Action.toStatus] at hs
  · rw [decideRow_eq_self hm]
    exact hm

/-- The cascade creates no pending row for the pair. -/
theorem no_pending_pair_after_cascade (rows : List ApprovalRow) (e a : Nat)
    (h : ∀ r ∈ rows,
      ¬(r.expense_id = e ∧ r.approver_id = a ∧ r.status = .pending)) :
    ∀ r ∈ rows.map (cascadeRow e a),
      ¬(r.expense_id = e ∧ r.approver_id = a ∧ r.status = .pending) := by
  intro r hr
  rcases List.mem_map.mp hr with ⟨r0, hr0, rfl⟩
  by_cases hm : r0.expense_id = e ∧ r0.status = .pending ∧ r0.approver_id ≠ a
  · rw [cascadeRow_eq_of_match hm]
    rintro ⟨-, -, hs⟩
    simp at hs
  · rw [cascadeRow_eq_self hm]
    exact h r0 hr0

/-- Writing the same expense status twice is the same as writing it once. -/
theorem setExpenseStatus_idem (eid : Nat) (s : Status) (x : Expense) :
    setExpenseStatus eid s (setExpenseStatus eid s x) = setExpenseStatus eid s x := by
  by_cases h : x.id = eid <;> simp [setExpenseStatus, h]

/-- Cascading twice is the same as cascading once. -/
theorem cascadeRow_idem (e a : Nat) (r : ApprovalRow) :
    cascadeRow e a (cascadeRow e a r) = cascadeRow e a r := by
  by_cases h : r.expense_id = e ∧ r.status = .pending ∧ r.approver_id ≠ a
  · rw [cascadeRow_eq_of_match h, cascadeRow_eq_self (by simp)]
  · rw [cascadeRow_eq_self h, cascadeRow_eq_self h]

/-- Claim C4, counterexample: two pending rows (approvers 10 and 20);
approver 10 successfully approves, then calls again with `rejected`.  The
second call is neither refused nor a no-op: it flips the expense from
pending to rejected and cascade-rejects approver 20's row. -/
theorem second_decision_changes_state :
    (∃ r ∈ (⟨[], [⟨1, 1, 1, 5, "USD", 5, "Food", "d", "2026-01-06", none, .pending⟩],
               [], [⟨1, 10, 1, .pending, none, none⟩, ⟨1, 20, 2, .pending, none, none⟩]⟩ :
               DB).expense_approvals,
       r.expense_id = 1 ∧ r.approver_id = 10 ∧ r.status = .pending) ∧
    (process_approval 1 10 .approved "ok" 1
        ⟨[], [⟨1, 1, 1, 5, "USD", 5, "Food", "d", "2026-01-06", none, .pending⟩],
         [], [⟨1, 10, 1, .pending, none, none⟩, ⟨1, 20, 2, .pending, none, none⟩]⟩).1
      = true ∧
    ((process_approval 1 10 .approved "ok" 1
        ⟨[], [⟨1, 1, 1, 5, "USD", 5, "Food", "d", "2026-01-06", none, .pending⟩],
         [], [⟨1, 10, 1, .pending, none, none⟩,
              ⟨1, 20, 2, .pending, none, none⟩]⟩).2.expenses.map Expense.status
      = [.pending]) ∧
    ((process_approval 1 10 .rejected "changed my mind" 2
        (process_approval 1 10 .approved "ok" 1
          ⟨[], [⟨1, 1, 1, 5, "USD", 5, "Food", "d", "2026-01-06", none, .pending⟩],
           [], [⟨1, 10, 1, .pending, none, none⟩,
                ⟨1, 20, 2, .pending, none, none⟩]⟩).2).2.expenses.map Expense.status
      = [.rejected]) := by
  decide

/-- Claim C4 (amended): a repeated decision call with the same action is a
true no-op — it returns success and leaves the state exactly as the first
call left it — whatever comments and timestamps the two calls carry.  (With
a different action the second call can still change state, as after an
approval a rejection re-runs the cascade and an approval after a rejection
flips the expense to approved.) -/
theorem process_approval_same_action_idempotent (db : DB) (e a : Nat)
    (act : Action) (c1 c2 : String) (n1 n2 : Nat) :
    process_approval e a act c2 n2 (process_approval e a act c1 n1 db).2 =
      (true, (process_approval e a act c1 n1 db).2) := by
  cases act with
  | approved =>
    have hA := no_pending_pair_after_decide db.expense_approvals e a .approved c1 n1
    have hm2 : (db.expense_approvals.map (decideRow e a .approved c1 n1)).map
        (decideRow e a .approved c2 n2) =
        db.expense_approvals.map (decideRow e a .approved c1 n1) :=
      map_decideRow_eq_self hA
    have hgg : (db.expenses.map (setExpenseStatus e .approved)).map
        (setExpenseStatus e .approved) =
        db.expenses.map (setExpenseStatus e .approved) := by
      rw [List.map_map]
      exact List.map_congr_left (fun x _ => setExpenseStatus_idem e .approved x)
    by_cases h0 :
        countStat (db.expense_approvals.map (decideRow e a .approved c1 n1)) e .pending = 0
    · have e1 : process_approval e a .approved c1 n1 db =
          (true, { db with
            expenses := db.expenses.map (setExpenseStatus e .approved),
            expense_approvals := db.expense_approvals.map (decideRow e a .approved c1 n1) }) := by
        unfold process_approval
        simp [h0]
      rw [e1]
      unfold process_approval
      simp [hm2, h0, hgg]
    · have e1 : process_approval e a .approved c1 n1 db =
          (true, { db with
            expense_approvals := db.expense_approvals.map (decideRow e a .approved c1 n1) }) := by
        unfold process_approval
        simp [h0]
      rw [e1]
      unfold process_approval
      simp [hm2, h0]
  | rejected =>
    have hA := no_pending_pair_after_cascade _ e a
      (no_pending_pair_after_decide db.expense_approvals e a .rejected c1 n1)
    have hm2 : ((db.expense_approvals.map (decideRow e a .rejected c1 n1)).map
        (cascadeRow e a)).map (decideRow e a .rejected c2 n2) =
        (db.expense_approvals.map (decideRow e a .rejected c1 n1)).map (cascadeRow e a) :=
      map_decideRow_eq_self hA
    have hcc : ((db.expense_approvals.map (decideRow e a .rejected c1 n1)).map
        (cascadeRow e a)).map (cascadeRow e a) =
        (db.expense_approvals.map (decideRow e a .rejected c1 n1)).map (cascadeRow e a) := by
      rw [List.map_map]
      exact List.map_congr_left (fun r _ => cascadeRow_idem e a r)
    have hgg : (db.expenses.map (setExpenseStatus e .rejected)).map
        (setExpenseStatus e .rejected) =
        db.expenses.map (setExpenseStatus e .rejected) := by
      rw [List.map_map]
      exact List.map_congr_left (fun x _ => setExpenseStatus_idem e .rejected x)
    have e1 : process_approval e a .rejected c1 n1 db =
        (true, { db with
          expenses := db.expenses.map (setExpenseStatus e .rejected),
          expense_approvals := (db.expense_approvals.map
            (decideRow e a .rejected c1 n1)).map (cascadeRow e a) }) := by
      unfold process_approval
      rfl
    rw [e1]
    unfold process_approval
    simp [hm2, hcc, hgg]
    intro r hr
    have hy := hA _ (List.mem_map_of_mem _ (List.mem_map_of_mem _ hr))
    rw [decideRow_eq_self hy, cascadeRow_idem]

/-- The specific-approver check fires exactly when the approver holds an
approved row of the expense. -/
theorem specificApproverMet_iff (db : DB) (e aid : Nat) :
    specificApproverMet db e aid = true ↔
      ∃ r ∈ db.expense_approvals,
        r.expense_id = e ∧ r.approver_id = aid ∧ r.status = .approved := by
  simp [specificApproverMet, List.length_pos_iff_exists_mem, List.mem_filter,
    and_assoc]

/-- The percentage check fires exactly when the expense has rows and the
approved fraction reaches the threshold. -/
theorem percentageMet_iff (db : DB) (e : Nat) (p : Int) :
    percentageMet db e p = true ↔
      0 < countRows db.expense_approvals e ∧
      ((countStat db.expense_approvals e .approved : ℚ) /
        (countRows db.expense_approvals e : ℚ)) * 100 ≥ (p : ℚ) := by
  simp [percentageMet]

/-- The loop-body test of `check_conditional_approval`, expressed
declaratively. -/
theorem ruleMet_iff (db : DB) (e : Nat) (w : ApprovalRule) :
    ruleMet db e w = true ↔
      (w.specific_approver_rule = true ∧
        ∃ r ∈ db.expense_approvals,
          r.expense_id = e ∧ r.approver_id = w.approver_id ∧ r.status = .approved) ∨
      (∃ p : Int, w.percentage_rule = some p ∧ p ≠ 0 ∧
        0 < countRows db.expense_approvals e ∧
        ((countStat db.expense_approvals e .approved : ℚ) /
          (countRows db.expense_approvals e : ℚ)) * 100 ≥ (p : ℚ)) := by
  cases hpr : w.percentage_rule with
  | none => simp [ruleMet, hpr, specificApproverMet_iff]
  | some p =>
    simp [ruleMet, hpr, specificApproverMet_iff, percentageMet_iff, and_assoc]

/-- Claim C6, counterexample: a company rule with the non-null threshold
`percentage_rule = 0` and an expense with one (unapproved) row.  The claim's
condition holds (0% ≥ 0), but the code returns false: Python's
`if percentage_rule:` treats the threshold 0 like NULL and skips the rule. -/
theorem zero_threshold_rule_skipped :
    (check_conditional_approval 1 1
        ⟨[], [], [⟨1, "zero", 9, 1, false, some 0, false⟩],
         [⟨1, 7, 1, .pending, none, none⟩]⟩).1 = false ∧
    specCondClaim
      ⟨[], [], [⟨1, "zero", 9, 1, false, some 0, false⟩],
       [⟨1, 7, 1, .pending, none, none⟩]⟩ 1 1 := by
  constructor
  · rfl
  · refine Or.inr ⟨⟨1, "zero", 9, 1, false, some 0, false⟩, ?_, rfl, 0, rfl, ?_⟩
    · simp
    · norm_num [countStat, countRows, List.filter]

/-- Claim C6 (amended): `check_conditional_approval` returns true iff either
some company rule with `specific_approver_rule` has an approved row of its
approver on the expense, or some company rule carries a non-null *non-zero*
`percentage_rule` and the expense has at least one approval row whose
approved fraction times 100 reaches the threshold; otherwise false.
(Python's `if percentage_rule:` skips a 0 threshold; the comparison is
modelled in exact rational arithmetic.) -/
theorem check_conditional_approval_iff (e cid : Nat) (db : DB) :
    (check_conditional_approval e cid db).1 = true ↔ specCondAmended db e cid := by
  unfold check_conditional_approval specCondAmended
  rw [List.any_eq_true]
  constructor
  · rintro ⟨w, hwf, hm⟩
    rw [List.mem_filter] at hwf
    obtain ⟨hw, hq⟩ := hwf
    have hcid : w.company_id = cid := by
      simp only [Bool.and_eq_true, beq_iff_eq] at hq
      exact hq.1
    rcases (ruleMet_iff db e w).mp hm with ⟨hsp, hex⟩ | ⟨p, hp, hne, hpos, hge⟩
    · exact Or.inl ⟨w, hw, hcid, hsp, hex⟩
    · exact Or.inr ⟨w, hw, hcid, p, hp, hne, hpos, hge⟩
  · rintro (⟨w, hw, hcid, hsp, hex⟩ | ⟨w, hw, hcid, p, hp, hne, hpos, hge⟩)
    · refine ⟨w, ?_, (ruleMet_iff db e w).mpr (Or.inl ⟨hsp, hex⟩)⟩
      rw [List.mem_filter]
      exact ⟨hw, by simp [hcid, hsp]⟩
    · refine ⟨w, ?_, (ruleMet_iff db e w).mpr (Or.inr ⟨p, hp, hne, hpos, hge⟩)⟩
      rw [List.mem_filter]
      exact ⟨hw, by simp [hcid, hp]⟩

instance : IsTotal ApprovalRule ruleLe :=
  ⟨fun x y => Nat.le_total x.sequence_order y.sequence_order⟩

instance : IsTrans ApprovalRule ruleLe :=
  ⟨fun _ _ _ hxy hyz => Nat.le_trans hxy hyz⟩

/-- Strict key order with equality, an antisymmetric companion of `ruleLe`
on rule lists with pairwise-distinct keys. -/
def ruleKeyOrd (x y : ApprovalRule) : Prop :=
  x.sequence_order < y.sequence_order ∨ x = y

instance : IsAntisymm ApprovalRule ruleKeyOrd := ⟨by
  intro a b h1 h2
  rcases h1 with h1 | h1
  · rcases h2 with h2 | h2
    · exact absurd h1 (Nat.not_lt.mpr (Nat.le_of_lt h2))
    · exact h2.symm
  · exact h1⟩

/-- A `ruleLe`-sorted list with pairwise-distinct keys is sorted for the
antisymmetric key order. -/
theorem sorted_ruleKeyOrd_of {l : List ApprovalRule}
    (hs : List.Sorted ruleLe l)
    (hnd : l.Pairwise fun x y => x.sequence_order ≠ y.sequence_order) :
    List.Sorted ruleKeyOrd l :=
  List.Pairwise.imp (fun h => Or.inl (lt_of_le_of_ne h.1 h.2)) (hs.and hnd)

/-- Insertion sort by `sequence_order` gives the same list on any two
permutations of a rule list with pairwise-distinct keys: the stored order
does not matter. -/
theorem insertionSort_eq_of_perm_of_distinct {l₁ l₂ : List ApprovalRule}
    (hperm : l₁.Perm l₂)
    (hnd : l₁.Pairwise fun x y => x.sequence_order ≠ y.sequence_order) :
    l₁.insertionSort ruleLe = l₂.insertionSort ruleLe := by
  have hsymm : ∀ {x y : ApprovalRule},
      x.sequence_order ≠ y.sequence_order → y.sequence_order ≠ x.sequence_order :=
    fun h => Ne.symm h
  have hnd₂ : l₂.Pairwise fun x y => x.sequence_order ≠ y.sequence_order :=
    (hperm.pairwise_iff hsymm).mp hnd
  have hs₁ : List.Sorted ruleKeyOrd (l₁.insertionSort ruleLe) :=
    sorted_ruleKeyOrd_of (List.sorted_insertionSort ruleLe l₁)
      (((List.perm_insertionSort ruleLe l₁).pairwise_iff hsymm).mpr hnd)
  have hs₂ : List.Sorted ruleKeyOrd (l₂.insertionSort ruleLe) :=
    sorted_ruleKeyOrd_of (List.sorted_insertionSort ruleLe l₂)
      (((List.perm_insertionSort ruleLe l₂).pairwise_iff hsymm).mpr hnd₂)
  have hp : (l₁.insertionSort ruleLe).Perm (l₂.insertionSort ruleLe) :=
    (List.perm_insertionSort ruleLe l₁).trans
      (hperm.trans (List.perm_insertionSort ruleLe l₂).symm)
  exact List.eq_of_perm_of_sorted hp hs₁ hs₂

/-- Claim C5: on an expense whose employee has a manager, the builder
inserts, in order, one pending row for the manager with sequence 1, then one
pending row per non-manager company rule taken in ascending stored
`sequence_order`, numbered contiguously 2, 3, …; and (second conjunct) the
sorted rule list — hence the inserted row list — is the same for every
permutation of the stored rules, provided the company's non-manager rules
have pairwise-distinct `sequence_order` keys. -/
theorem create_approval_workflow_ordering (db : DB) (cid eid : Nat)
    (u : User) (m : Nat)
    (hu : lookupEmployee db eid = some u)
    (hm : u.manager_id = some m)
    (hnd : (companyRules db cid).Pairwise
      fun x y => x.sequence_order ≠ y.sequence_order) :
    create_approval_workflow cid eid db =
      (true, { db with expense_approvals := db.expense_approvals ++
        (⟨eid, m, 1, .pending, none, none⟩ ::
          ((companyRules db cid).insertionSort ruleLe).enum.map
            (fun p => ⟨eid, p.2.approver_id, p.1 + 2, .pending, none, none⟩)) }) ∧
    ∀ rules2 : List ApprovalRule, rules2.Perm db.approval_workflows →
      ((rules2.filter
          (fun w => w.company_id == cid && !w.is_manager_approver)).insertionSort ruleLe) =
        ((companyRules db cid).insertionSort ruleLe) := by
  constructor
  · unfold create_approval_workflow
    rw [hu]
    simp only [managerRows, ruleRows, hm, List.length_singleton, List.append_assoc,
      List.singleton_append]
    have hmap : ∀ p : Nat × ApprovalRule,
        (⟨eid, p.2.approver_id, 1 + 1 + p.1, .pending, none, none⟩ : ApprovalRow) =
          ⟨eid, p.2.approver_id, p.1 + 2, .pending, none, none⟩ := by
      intro p
      have harith : 1 + 1 + p.1 = p.1 + 2 := by omega
      rw [harith]
    rw [List.map_congr_left (fun p _ => hmap p)]
  · intro rules2 hperm
    refine insertionSort_eq_of_perm_of_distinct ?_ ?_
    · exact hperm.filter _
    · have hsymm : ∀ {x y : ApprovalRule},
          x.sequence_order ≠ y.sequence_order → y.sequence_order ≠ x.sequence_order :=
        fun h => Ne.symm h
      exact ((hperm.filter _).pairwise_iff hsymm).mpr hnd

/-- Concrete instance of the C5 theorem: the spec's scenario — manager 2,
rules (approver 3, seq 1) and (approver 4, seq 2) stored in reverse order —
produces rows [manager 2, approver 3, approver 4] with sequence 1, 2, 3. -/
theorem create_approval_workflow_ordering_witness :
    create_approval_workflow 1 1
        ⟨[⟨1, "e", "e@x", "employee", 1, some 2⟩],
         [⟨1, 1, 1, 5, "USD", 5, "Food", "d", "2026-01-07", none, .pending⟩],
         [⟨1, "Y", 4, 2, false, none, false⟩, ⟨1, "X", 3, 1, false, none, false⟩],
         []⟩ =
      (true,
       ⟨[⟨1, "e", "e@x", "employee", 1, some 2⟩],
        [⟨1, 1, 1, 5, "USD", 5, "Food", "d", "2026-01-07", none, .pending⟩],
        [⟨1, "Y", 4, 2, false, none, false⟩, ⟨1, "X", 3, 1, false, none, false⟩],
        [⟨1, 2, 1, .pending, none, none⟩, ⟨1, 3, 2, .pending, none, none⟩,
         ⟨1, 4, 3, .pending, none, none⟩]⟩) := by
  have h := (create_approval_workflow_ordering
    ⟨[⟨1, "e", "e@x", "employee", 1, some 2⟩],
     [⟨1, 1, 1, 5, "USD", 5, "Food", "d", "2026-01-07", none, .pending⟩],
     [⟨1, "Y", 4, 2, false, none, false⟩, ⟨1, "X", 3, 1, false, none, false⟩],
     []⟩ 1 1 ⟨1, "e", "e@x", "employee", 1, some 2⟩ 2 rfl rfl (by decide)).1
  exact h.trans (by decide)

/-- Row-wise updates preserve per-expense row totals. -/
theorem countRows_map {f : ApprovalRow → ApprovalRow}
    (hid : ∀ r, (f r).expense_id = r.expense_id) (rows : List ApprovalRow)
    (eid : Nat) : countRows (rows.map f) eid = countRows rows eid := by
  unfold countRows
  apply length_filter_map_eq
  intro r _
  rw [hid]

/-- A row-wise update that only touches rows of expense `e0` preserves every
status count of every other expense. -/
theorem countStat_map_of_ne {f : ApprovalRow → ApprovalRow} {e0 : Nat}
    (hid : ∀ r, (f r).expense_id = r.expense_id)
    (hother : ∀ r, r.expense_id ≠ e0 → f r = r) (rows : List ApprovalRow)
    {eid : Nat} (hne : eid ≠ e0) (s : Status) :
    countStat (rows.map f) eid s = countStat rows eid s := by
  unfold countStat
  apply length_filter_map_eq
  intro r _
  by_cases h : r.expense_id = e0
  · have he0 : e0 ≠ eid := Ne.symm hne
    have hb : (e0 == eid) = false := by
      simp [he0]
    simp [hid, h, hb]
  · rw [hother r h]

/-- Status counts split over appended row lists. -/
theorem countStat_append (l1 l2 : List ApprovalRow) (e : Nat) (s : Status) :
    countStat (l1 ++ l2) e s = countStat l1 e s + countStat l2 e s := by
  simp [countStat, List.filter_append]

/-- Row totals split over appended row lists. -/
theorem countRows_append (l1 l2 : List ApprovalRow) (e : Nat) :
    countRows (l1 ++ l2) e = countRows l1 e + countRows l2 e := by
  simp [countRows, List.filter_append]

/-- A status count over rows that all belong to `e` with status `s` is the
full length. -/
theorem countStat_eq_length_of {l : List ApprovalRow} {e : Nat} {s : Status}
    (h : ∀ r ∈ l, r.expense_id = e ∧ r.status = s) :
    countStat l e s = l.length := by
  unfold countStat
  rw [List.filter_eq_self.mpr]
  intro r hr
  simp [(h r hr).1, (h r hr).2]

/-- A row total over rows that all belong to `e` is the full length. -/
theorem countRows_eq_length_of {l : List ApprovalRow} {e : Nat}
    (h : ∀ r ∈ l, r.expense_id = e) :
    countRows l e = l.length := by
  unfold countRows
  rw [List.filter_eq_self.mpr]
  intro r hr
  simp [h r hr]

/-- The pending-otherwise clause of the invariant follows from the approved
and rejected clauses. -/
theorem expInvariant_of_two {rows : List ApprovalRow} {e : Expense}
    (hA : e.status = .approved ↔ approvedCond rows e.id)
    (hR : e.status = .rejected ↔ rejectedCond rows e.id) :
    expInvariant rows e := by
  refine ⟨hA, hR, ?_⟩
  constructor
  · intro hp
    refine ⟨fun hA' => ?_, fun hR' => ?_⟩
    · have hx := hA.mpr hA'
      rw [hp] at hx
      exact Status.noConfusion hx
    · have hx := hR.mpr hR'
      rw [hp] at hx
      exact Status.noConfusion hx
  · rintro ⟨hnA, hnR⟩
    cases hst : e.status with
    | pending => rfl
    | approved => exact absurd (hA.mp hst) hnA
    | rejected => exact absurd (hR.mp hst) hnR

/-- The per-expense invariant transports along unchanged status and
counts. -/
theorem expInvariant_congr {rows' rows : List ApprovalRow} {e : Expense}
    (ht : countRows rows' e.id = countRows rows e.id)
    (hp : countStat rows' e.id .pending = countStat rows e.id .pending)
    (hr : countStat rows' e.id .rejected = countStat rows e.id .rejected)
    (h : expInvariant rows e) : expInvariant rows' e := by
  have hA : approvedCond rows' e.id ↔ approvedCond rows e.id := by
    unfold approvedCond
    rw [ht, hp, hr]
  have hR : rejectedCond rows' e.id ↔ rejectedCond rows e.id := by
    unfold rejectedCond
    rw [hr]
  exact expInvariant_of_two (h.1.trans hA.symm) (h.2.1.trans hR.symm)

/-- A row total is zero exactly when the expense has no row. -/
theorem countRows_eq_zero_iff (rows : List ApprovalRow) (e : Nat) :
    countRows rows e = 0 ↔ ∀ r ∈ rows, r.expense_id ≠ e := by
  simp [countRows, List.length_eq_zero, List.filter_eq_nil_iff]

/-- Every admissible call preserves the strengthened status invariant. -/
theorem statusInvariantFull_runCall {db : DB} {c : Call}
    (hinv : statusInvariantFull db) (hadm : admissible db c) :
    statusInvariantFull (runCall db c) := by
  cases c with
  | createWorkflow cid eid =>
    cases hlu : lookupEmployee db eid with
    | none =>
      have hdb : runCall db (.createWorkflow cid eid) = db := by
        unfold runCall create_approval_workflow
        simp only [hlu]
      rw [hdb]
      exact hinv
    | some u =>
      have hins : ∀ r ∈ managerRows eid u ++
          ruleRows db cid eid (managerRows eid u).length,
          r.expense_id = eid ∧ r.status = Status.pending := by
        intro r hr
        rcases List.mem_append.mp hr with hr | hr
        · unfold managerRows at hr
          cases hmm : u.manager_id with
          | none =>
            rw [hmm] at hr
            simp at hr
          | some m =>
            rw [hmm] at hr
            simp at hr
            rw [hr]
            exact ⟨rfl, rfl⟩
        · unfold ruleRows at hr
          rcases List.mem_map.mp hr with ⟨p, hp, rfl⟩
          exact ⟨rfl, rfl⟩
      have hdb : runCall db (.createWorkflow cid eid) =
          { db with expense_approvals := db.expense_approvals ++
            (managerRows eid u ++ ruleRows db cid eid (managerRows eid u).length) } := by
        unfold runCall create_approval_workflow
        simp only [hlu]
        rw [List.append_assoc]
      rw [hdb]
      intro e he
      obtain ⟨hexp, hfull⟩ := hinv e he
      by_cases heq : e.id = eid
      · have hpend := hadm e he heq
        have hid1 : ∀ r ∈ managerRows eid u ++
            ruleRows db cid eid (managerRows eid u).length, r.expense_id = e.id :=
          fun r hr => (hins r hr).1.trans heq.symm
        have htot : countRows (db.expense_approvals ++
            (managerRows eid u ++ ruleRows db cid eid (managerRows eid u).length)) e.id =
            countRows db.expense_approvals e.id +
              (managerRows eid u ++ ruleRows db cid eid (managerRows eid u).length).length := by
          rw [countRows_append, countRows_eq_length_of hid1]
        have hpen : countStat (db.expense_approvals ++
            (managerRows eid u ++ ruleRows db cid eid (managerRows eid u).length)) e.id .pending =
            countStat db.expense_approvals e.id .pending +
              (managerRows eid u ++ ruleRows db cid eid (managerRows eid u).length).length := by
          rw [countStat_append,
            countStat_eq_length_of (fun r hr => ⟨hid1 r hr, (hins r hr).2⟩)]
        have hrej0 : countStat (managerRows eid u ++
            ruleRows db cid eid (managerRows eid u).length) e.id .rejected = 0 := by
          apply (countStat_eq_zero_iff _ _ _).mpr
          intro r hr hc
          have h2 := (hins r hr).2
          rw [h2] at hc
          exact Status.noConfusion hc.2
        have hrej : countStat (db.expense_approvals ++
            (managerRows eid u ++ ruleRows db cid eid (managerRows eid u).length)) e.id .rejected =
            countStat db.expense_approvals e.id .rejected := by
          rw [countStat_append, hrej0]
          omega
        have hold := hexp.2.2.mp hpend
        have hrejold : countStat db.expense_approvals e.id .rejected = 0 := by
          have hnr := hold.2
          unfold rejectedCond at hnr
          omega
        refine ⟨expInvariant_of_two ?_ ?_, ?_⟩
        · show e.status = Status.approved ↔
            approvedCond (db.expense_approvals ++
              (managerRows eid u ++ ruleRows db cid eid (managerRows eid u).length)) e.id
          rw [hpend]
          unfold approvedCond
          rw [htot, hpen, hrej, hrejold]
          constructor
          · intro hx
            exact Status.noConfusion hx
          · rintro ⟨h1, h2, -⟩
            exfalso
            apply hold.1
            unfold approvedCond
            refine ⟨by omega, by omega, hrejold⟩
        · show e.status = Status.rejected ↔
            rejectedCond (db.expense_approvals ++
              (managerRows eid u ++ ruleRows db cid eid (managerRows eid u).length)) e.id
          rw [hpend]
          unfold rejectedCond
          rw [hrej, hrejold]
          constructor
          · intro hx
            exact Status.noConfusion hx
          · intro hx
            exact absurd hx (by omega)
        · intro hx
          rw [hpend] at hx
          exact Status.noConfusion hx
      · have hzt : countRows (managerRows eid u ++
            ruleRows db cid eid (managerRows eid u).length) e.id = 0 := by
          apply (countRows_eq_zero_iff _ _).mpr
          intro r hr
          rw [(hins r hr).1]
          exact fun hx => heq hx.symm
        have hzs : ∀ s, countStat (managerRows eid u ++
            ruleRows db cid eid (managerRows eid u).length) e.id s = 0 := by
          intro s
          apply (countStat_eq_zero_iff _ _ _).mpr
          intro r hr hc
          rw [(hins r hr).1] at hc
          exact heq hc.1.symm
        have hc1 : countRows (db.expense_approvals ++
            (managerRows eid u ++ ruleRows db cid eid (managerRows eid u).length)) e.id =
            countRows db.expense_approvals e.id := by
          rw [countRows_append, hzt]
          omega
        have hc2 : ∀ s, countStat (db.expense_approvals ++
            (managerRows eid u ++ ruleRows db cid eid (managerRows eid u).length)) e.id s =
            countStat db.expense_approvals e.id s := by
          intro s
          rw [countStat_append, hzs]
          omega
        refine ⟨expInvariant_congr hc1 (hc2 _) (hc2 _) hexp, ?_⟩
        intro hx
        show countStat (db.expense_approvals ++
          (managerRows eid u ++ ruleRows db cid eid (managerRows eid u).length)) e.id .pending = 0
        rw [hc2]
        exact hfull hx
  | processApproval e0 a0 act cm now =>
    obtain ⟨r0, hr0, hr0e, hr0a, hr0s⟩ := hadm
    cases act with
    | rejected =>
      have hdb : runCall db (.processApproval e0 a0 .rejected cm now) =
          { db with
            expenses := db.expenses.map (setExpenseStatus e0 .rejected),
            expense_approvals := (db.expense_approvals.map
              (decideRow e0 a0 .rejected cm now)).map (cascadeRow e0 a0) } := by
        unfold runCall process_approval
        rfl
      rw [hdb]
      have hid1 : ∀ r, (decideRow e0 a0 Action.rejected cm now r).expense_id = r.expense_id :=
        decideRow_expense_id e0 a0 .rejected cm now
      have hid2 : ∀ r, (cascadeRow e0 a0 r).expense_id = r.expense_id :=
        cascadeRow_expense_id e0 a0
      have hoth1 : ∀ r, r.expense_id ≠ e0 → decideRow e0 a0 Action.rejected cm now r = r :=
        fun r h => decideRow_eq_self (fun hc => h hc.1)
      have hoth2 : ∀ r, r.expense_id ≠ e0 → cascadeRow e0 a0 r = r :=
        fun r h => cascadeRow_eq_self (fun hc => h hc.1)
      have hpend0 : countStat ((db.expense_approvals.map
          (decideRow e0 a0 .rejected cm now)).map (cascadeRow e0 a0)) e0 .pending = 0 := by
        apply (countStat_eq_zero_iff _ _ _).mpr
        intro r hr hc
        rcases List.mem_map.mp hr with ⟨r1, hr1, rfl⟩
        rcases List.mem_map.mp hr1 with ⟨r2, hr2, rfl⟩
        by_cases hm1 : r2.expense_id = e0 ∧ r2.approver_id = a0 ∧ r2.status = Status.pending
        · rw [decideRow_eq_of_match hm1,
            cascadeRow_eq_self (by simp [Action.toStatus])] at hc
          simp [Action.toStatus] at hc
        · rw [decideRow_eq_self hm1] at hc
          by_cases hm2 : r2.expense_id = e0 ∧ r2.status = Status.pending ∧ r2.approver_id ≠ a0
          · rw [cascadeRow_eq_of_match hm2] at hc
            simp at hc
          · rw [cascadeRow_eq_self hm2] at hc
            have ha : r2.approver_id = a0 := by
              by_contra hna
              exact hm2 ⟨hc.1, hc.2, hna⟩
            exact hm1 ⟨hc.1, ha, hc.2⟩
      have hrejpos : 0 < countStat ((db.expense_approvals.map
          (decideRow e0 a0 .rejected cm now)).map (cascadeRow e0 a0)) e0 .rejected := by
        apply (countStat_pos_iff _ _ _).mpr
        refine ⟨cascadeRow e0 a0 (decideRow e0 a0 .rejected cm now r0),
          List.mem_map_of_mem _ (List.mem_map_of_mem _ hr0), ?_, ?_⟩
        · rw [hid2, hid1, hr0e]
        · rw [decideRow_eq_of_match ⟨hr0e, hr0a, hr0s⟩,
            cascadeRow_eq_self (by simp [Action.toStatus])]
          simp [Action.toStatus]
      intro e' he'
      rcases List.mem_map.mp he' with ⟨e, he, rfl⟩
      obtain ⟨hexp, hfull⟩ := hinv e he
      by_cases heq : e.id = e0
      · have hst : (setExpenseStatus e0 Status.rejected e).status = Status.rejected := by
          rw [setExpenseStatus_eq_of_match heq]
        have hidp : (setExpenseStatus e0 Status.rejected e).id = e.id :=
          setExpenseStatus_id e0 Status.rejected e
        refine ⟨expInvariant_of_two ?_ ?_, ?_⟩
        · show (setExpenseStatus e0 Status.rejected e).status = Status.approved ↔
            approvedCond ((db.expense_approvals.map
              (decideRow e0 a0 .rejected cm now)).map (cascadeRow e0 a0))
              (setExpenseStatus e0 Status.rejected e).id
          rw [hst, hidp, heq]
          unfold approvedCond
          constructor
          · intro hx
            exact Status.noConfusion hx
          · rintro ⟨-, -, h3⟩
            exfalso
            omega
        · show (setExpenseStatus e0 Status.rejected e).status = Status.rejected ↔
            rejectedCond ((db.expense_approvals.map
              (decideRow e0 a0 .rejected cm now)).map (cascadeRow e0 a0))
              (setExpenseStatus e0 Status.rejected e).id
          rw [hst, hidp, heq]
          unfold rejectedCond
          exact ⟨fun _ => hrejpos, fun _ => rfl⟩
        · intro hx
          show countStat ((db.expense_approvals.map
            (decideRow e0 a0 .rejected cm now)).map (cascadeRow e0 a0))
            (setExpenseStatus e0 Status.rejected e).id .pending = 0
          rw [hidp, heq]
          exact hpend0
      · have hee : setExpenseStatus e0 Status.rejected e = e := setExpenseStatus_eq_self heq
        rw [hee]
        have hc1 : countRows ((db.expense_approvals.map
            (decideRow e0 a0 .rejected cm now)).map (cascadeRow e0 a0)) e.id =
            countRows db.expense_approvals e.id := by
          rw [countRows_map hid2, countRows_map hid1]
        have hc2 : ∀ s, countStat ((db.expense_approvals.map
            (decideRow e0 a0 .rejected cm now)).map (cascadeRow e0 a0)) e.id s =
            countStat db.expense_approvals e.id s := by
          intro s
          rw [countStat_map_of_ne hid2 hoth2 _ heq, countStat_map_of_ne hid1 hoth1 _ heq]
        refine ⟨expInvariant_congr hc1 (hc2 _) (hc2 _) hexp, ?_⟩
        intro hx
        show countStat ((db.expense_approvals.map
          (decideRow e0 a0 .rejected cm now)).map (cascadeRow e0 a0)) e.id .pending = 0
        rw [hc2]
        exact hfull hx
    | approved =>
      have hid1 : ∀ r, (decideRow e0 a0 Action.approved cm now r).expense_id = r.expense_id :=
        decideRow_expense_id e0 a0 .approved cm now
      have hoth1 : ∀ r, r.expense_id ≠ e0 → decideRow e0 a0 Action.approved cm now r = r :=
        fun r h => decideRow_eq_self (fun hc => h hc.1)
      have hcr : countStat (db.expense_approvals.map
          (decideRow e0 a0 .approved cm now)) e0 .rejected =
          countStat db.expense_approvals e0 .rejected := by
        unfold countStat
        apply length_filter_map_eq
        intro r _
        by_cases hm1 : r.expense_id = e0 ∧ r.approver_id = a0 ∧ r.status = Status.pending
        · rw [decideRow_eq_of_match hm1]
          simp only [hm1.2.2, Action.toStatus,
            show (Status.approved == Status.rejected) = false from rfl,
            show (Status.pending == Status.rejected) = false from rfl,
            Bool.and_false]
        · rw [decideRow_eq_self hm1]
      have hp_old0 : 0 < countStat db.expense_approvals e0 .pending :=
        (countStat_pos_iff _ _ _).mpr ⟨r0, hr0, hr0e, hr0s⟩
      have htotpos : 0 < countRows (db.expense_approvals.map
          (decideRow e0 a0 .approved cm now)) e0 :=
        (countRows_pos_iff _ _).mpr
          ⟨decideRow e0 a0 .approved cm now r0, List.mem_map_of_mem _ hr0,
            by rw [hid1, hr0e]⟩
      by_cases h0 : countStat (db.expense_approvals.map
          (decideRow e0 a0 .approved cm now)) e0 .pending = 0
      · have hdb : runCall db (.processApproval e0 a0 .approved cm now) =
            { db with
              expenses := db.expenses.map (setExpenseStatus e0 .approved),
              expense_approvals := db.expense_approvals.map
                (decideRow e0 a0 .approved cm now) } := by
          unfold runCall process_approval
          simp [h0]
        rw [hdb]
        intro e' he'
        rcases List.mem_map.mp he' with ⟨e, he, rfl⟩
        obtain ⟨hexp, hfull⟩ := hinv e he
        by_cases heq : e.id = e0
        · have hst_old : e.status = Status.pending := by
            cases hst : e.status with
            | pending => rfl
            | approved =>
              exfalso
              have h2 := (hexp.1.mp hst).2.1
              rw [heq] at h2
              omega
            | rejected =>
              exfalso
              have h2 := hfull hst
              rw [heq] at h2
              omega
          have hrejold0 : countStat db.expense_approvals e0 .rejected = 0 := by
            have h2 := (hexp.2.2.mp hst_old).2
            unfold rejectedCond at h2
            rw [heq] at h2
            omega
          have hst : (setExpenseStatus e0 Status.approved e).status = Status.approved := by
            rw [setExpenseStatus_eq_of_match heq]
          have hidp : (setExpenseStatus e0 Status.approved e).id = e.id :=
            setExpenseStatus_id e0 Status.approved e
          refine ⟨expInvariant_of_two ?_ ?_, ?_⟩
          · show (setExpenseStatus e0 Status.approved e).status = Status.approved ↔
              approvedCond (db.expense_approvals.map
                (decideRow e0 a0 .approved cm now))
                (setExpenseStatus e0 Status.approved e).id
            rw [hst, hidp, heq]
            unfold approvedCond
            constructor
            · intro _
              refine ⟨htotpos, h0, ?_⟩
              rw [hcr]
              exact hrejold0
            · intro _
              rfl
          · show (setExpenseStatus e0 Status.approved e).status = Status.rejected ↔
              rejectedCond (db.expense_approvals.map
                (decideRow e0 a0 .approved cm now))
                (setExpenseStatus e0 Status.approved e).id
            rw [hst, hidp, heq]
            unfold rejectedCond
            constructor
            · intro hx
              exact Status.noConfusion hx
            · intro hx
              exfalso
              rw [hcr] at hx
              omega
          · intro hx
            rw [hst] at hx
            exact Status.noConfusion hx
        · have hee : setExpenseStatus e0 Status.approved e = e := setExpenseStatus_eq_self heq
          rw [hee]
          have hc1 : countRows (db.expense_approvals.map
              (decideRow e0 a0 .approved cm now)) e.id =
              countRows db.expense_approvals e.id := countRows_map hid1 _ _
          have hc2 : ∀ s, countStat (db.expense_approvals.map
              (decideRow e0 a0 .approved cm now)) e.id s =
              countStat db.expense_approvals e.id s :=
            fun s => countStat_map_of_ne hid1 hoth1 _ heq s
          refine ⟨expInvariant_congr hc1 (hc2 _) (hc2 _) hexp, ?_⟩
          intro hx
          show countStat (db.expense_approvals.map
            (decideRow e0 a0 .approved cm now)) e.id .pending = 0
          rw [hc2]
          exact hfull hx
      · have hdb : runCall db (.processApproval e0 a0 .approved cm now) =
            { db with
              expense_approvals := db.expense_approvals.map
                (decideRow e0 a0 .approved cm now) } := by
          unfold runCall process_approval
          simp [h0]
        rw [hdb]
        intro e he
        obtain ⟨hexp, hfull⟩ := hinv e he
        by_cases heq : e.id = e0
        · have hst_old : e.status = Status.pending := by
            cases hst : e.status with
            | pending => rfl
            | approved =>
              exfalso
              have h2 := (hexp.1.mp hst).2.1
              rw [heq] at h2
              omega
            | rejected =>
              exfalso
              have h2 := hfull hst
              rw [heq] at h2
              omega
          have hrejold0 : countStat db.expense_approvals e0 .rejected = 0 := by
            have h2 := (hexp.2.2.mp hst_old).2
            unfold rejectedCond at h2
            rw [heq] at h2
            omega
          refine ⟨expInvariant_of_two ?_ ?_, ?_⟩
          · show e.status = Status.approved ↔
              approvedCond (db.expense_approvals.map
                (decideRow e0 a0 .approved cm now)) e.id
            rw [hst_old, heq]
            unfold approvedCond
            constructor
            · intro hx
              exact Status.noConfusion hx
            · rintro ⟨-, h2, -⟩
              exact absurd h2 h0
          · show e.status = Status.rejected ↔
              rejectedCond (db.expense_approvals.map
                (decideRow e0 a0 .approved cm now)) e.id
            rw [hst_old, heq]
            unfold rejectedCond
            constructor
            · intro hx
              exact Status.noConfusion hx
            · intro hx
              exfalso
              rw [hcr] at hx
              omega
          · intro hx
            rw [hst_old] at hx
            exact Status.noConfusion hx
        · have hc1 : countRows (db.expense_approvals.map
              (decideRow e0 a0 .approved cm now)) e.id =
              countRows db.expense_approvals e.id := countRows_map hid1 _ _
          have hc2 : ∀ s, countStat (db.expense_approvals.map
              (decideRow e0 a0 .approved cm now)) e.id s =
              countStat db.expense_approvals e.id s :=
            fun s => countStat_map_of_ne hid1 hoth1 _ heq s
          refine ⟨expInvariant_congr hc1 (hc2 _) (hc2 _) hexp, ?_⟩
          intro hx
          show countStat (db.expense_approvals.map
            (decideRow e0 a0 .approved cm now)) e.id .pending = 0
          rw [hc2]
          exact hfull hx

instance (rows : List ApprovalRow) (eid : Nat) : Decidable (approvedCond rows eid) :=
  inferInstanceAs (Decidable (0 < countRows rows eid ∧
    countStat rows eid .pending = 0 ∧ countStat rows eid .rejected = 0))

instance (rows : List ApprovalRow) (eid : Nat) : Decidable (rejectedCond rows eid) :=
  inferInstanceAs (Decidable (0 < countStat rows eid .rejected))

instance (rows : List ApprovalRow) (e : Expense) : Decidable (expInvariant rows e) :=
  inferInstanceAs (Decidable ((e.status = .approved ↔ approvedCond rows e.id) ∧
    (e.status = .rejected ↔ rejectedCond rows e.id) ∧
    (e.status = .pending ↔ ¬approvedCond rows e.id ∧ ¬rejectedCond rows e.id)))

instance (db : DB) : Decidable (statusInvariant db) :=
  inferInstanceAs (Decidable (∀ e ∈ db.expenses, expInvariant db.expense_approvals e))

instance (db : DB) : Decidable (statusInvariantFull db) :=
  inferInstanceAs (Decidable (∀ e ∈ db.expenses, expInvariant db.expense_approvals e ∧
    (e.status = .rejected → countStat db.expense_approvals e.id .pending = 0)))

/-- Admissible traces preserve the strengthened invariant, step by step. -/
theorem statusInvariantFull_runCalls {db : DB} {cs : List Call}
    (htr : AdmissibleTrace db cs) :
    statusInvariantFull db → statusInvariantFull (runCalls db cs) := by
  induction htr with
  | nil db2 =>
    intro h0
    exact h0
  | cons hadm htl ih =>
    intro h0
    exact ih (statusInvariantFull_runCall h0 hadm)

/-- Claim C1, counterexample: an expense created in pending status with no
approval rows satisfies the claimed invariant, but after the single call
`process_approval(1, 5, approved, ...)` — a sequence the claim quantifies
over — the invariant is broken: the expense is `approved` with zero
approval rows. -/
theorem phantom_approval_breaks_status_invariant :
    statusInvariant
      (⟨[], [⟨1, 1, 1, 5, "USD", 5, "Food", "d", "2026-01-08", none, .pending⟩],
        [], []⟩ : DB) ∧
    ¬ statusInvariant (runCalls
      ⟨[], [⟨1, 1, 1, 5, "USD", 5, "Food", "d", "2026-01-08", none, .pending⟩],
       [], []⟩
      [Call.processApproval 1 5 .approved "ok" 0]) := by
  decide

/-- Claim C1 (amended): the status invariant — `approved` iff at least one
row with zero pending and zero rejected, `rejected` iff some rejected row,
`pending` otherwise — holds in every state reached by an admissible call
sequence from a state satisfying the strengthened invariant: every
`create_approval_workflow` call targets only expenses still in `pending`
status and every `process_approval` call has a pending row for its
`(expense, approver)` pair. -/
theorem status_invariant_of_admissible_trace (db : DB) (cs : List Call)
    (h0 : statusInvariantFull db) (htr : AdmissibleTrace db cs) :
    statusInvariant (runCalls db cs) := by
  intro e he
  exact (statusInvariantFull_runCalls htr h0 e he).1

/-- Concrete instance of the C1 theorem: a fresh pending expense, workflow
creation (manager row) and the manager's approval; the invariant holds in
the final state, where the expense is approved. -/
theorem status_invariant_of_admissible_trace_witness :
    statusInvariantFull
      (⟨[⟨1, "e", "e@x", "employee", 1, some 2⟩],
        [⟨1, 1, 1, 5, "USD", 5, "Food", "d", "2026-01-09", none, .pending⟩],
        [], []⟩ : DB) ∧
    AdmissibleTrace
      ⟨[⟨1, "e", "e@x", "employee", 1, some 2⟩],
       [⟨1, 1, 1, 5, "USD", 5, "Food", "d", "2026-01-09", none, .pending⟩],
       [], []⟩
      [Call.createWorkflow 1 1, Call.processApproval 1 2 .approved "ok" 3] ∧
    statusInvariant (runCalls
      ⟨[⟨1, "e", "e@x", "employee", 1, some 2⟩],
       [⟨1, 1, 1, 5, "USD", 5, "Food", "d", "2026-01-09", none, .pending⟩],
       [], []⟩
      [Call.createWorkflow 1 1, Call.processApproval 1 2 .approved "ok" 3]) := by
  have htr : AdmissibleTrace
      ⟨[⟨1, "e", "e@x", "employee", 1, some 2⟩],
       [⟨1, 1, 1, 5, "USD", 5, "Food", "d", "2026-01-09", none, .pending⟩],
       [], []⟩
      [Call.createWorkflow 1 1, Call.processApproval 1 2 .approved "ok" 3] :=
    AdmissibleTrace.cons (by decide)
      (AdmissibleTrace.cons (by decide) (AdmissibleTrace.nil _))
  exact ⟨by decide, htr,
    status_invariant_of_admissible_trace _ _ (by decide) htr⟩

end ExpenseApp
